import Mathlib

/-!
Verification of the upstash/realtime delivery protocol core, as implemented in
the repository sources.  The embedding models:

* the Sequence Identifier comparator (`compareStreamIds`, src/unnamed/part_005)
  and generator (`generateStreamId`, src/src/server/realtime.ts);
* the per-topic append-only log and the two bounded range reads
  (`XRANGE`/`XREVRANGE` as used by the session handler);
* the subscription-session handler (`onSubscribe`, `onMessage`, `cleanup`,
  `cancel` from src/unnamed/part_007);
* the client hook message processing (src/src/client/use-realtime.ts);
* the producer (`emit`, `findSchema`, `channel` from
  src/src/server/realtime.ts).

Identifiers `"<timestamp>-<counter>"` are modelled as parsed pairs of naturals;
the string form is only ever produced and consumed through
`compareStreamIds`-style parsing in the source, so the pair form is faithful.
-/

/-- A parsed stream identifier `"<ts>-<seq>"`. -/
structure StreamId where
  ts : Nat
  seq : Nat
deriving DecidableEq, Repr

/-- The sentinel `"0-0"` identifier used as cursor for an empty topic. -/
def zeroId : StreamId := ⟨0, 0⟩

/-- src/unnamed/part_005 `compareStreamIds`: parses both components as integers
and compares timestamp first, then counter (here the parsing is already done by
the `StreamId` representation). -/
def compareStreamIds (a b : StreamId) : Int :=
  if a.ts ≠ b.ts then (a.ts : Int) - (b.ts : Int) else (a.seq : Int) - (b.seq : Int)

/-- Strict order induced by the comparator. -/
def idLt (a b : StreamId) : Prop := compareStreamIds a b < 0

/-- Reflexive closure of `idLt`. -/
def idLe (a b : StreamId) : Prop := a = b ∨ idLt a b

instance : DecidableRel idLt := fun a b =>
  decidable_of_iff (compareStreamIds a b < 0) Iff.rfl

instance (a b : StreamId) : Decidable (idLe a b) :=
  decidable_of_iff (a = b ∨ idLt a b) Iff.rfl

theorem idLt_iff {a b : StreamId} :
    idLt a b ↔ a.ts < b.ts ∨ (a.ts = b.ts ∧ a.seq < b.seq) := by
  unfold idLt compareStreamIds
  split <;> omega

theorem idLe_iff {a b : StreamId} :
    idLe a b ↔ a.ts < b.ts ∨ (a.ts = b.ts ∧ a.seq ≤ b.seq) := by
  constructor
  · rintro (rfl | h)
    · omega
    · rw [idLt_iff] at h; omega
  · intro h
    by_cases hab : a = b
    · exact Or.inl hab
    · refine Or.inr (idLt_iff.mpr ?_)
      rcases a with ⟨t₁, s₁⟩
      rcases b with ⟨t₂, s₂⟩
      simp only [StreamId.mk.injEq] at hab
      simp only at h ⊢
      omega

theorem idLt_trans {a b c : StreamId} (h₁ : idLt a b) (h₂ : idLt b c) : idLt a c := by
  rw [idLt_iff] at h₁ h₂ ⊢; omega

theorem idLt_of_le_of_lt {a b c : StreamId} (h₁ : idLe a b) (h₂ : idLt b c) : idLt a c := by
  rw [idLe_iff] at h₁; rw [idLt_iff] at h₂ ⊢; omega

instance : Trans idLt idLt idLt := ⟨idLt_trans⟩

/-! ## The Sequence Identifier generator

`generateStreamId` from src/src/server/realtime.ts keeps a `_lastTimestamp`
and an `_idBuffer` set of the ids handed out so far; whenever `Date.now()`
differs from `_lastTimestamp` (note: `!==`, not `>`) the buffer is cleared and
the last timestamp replaced.  The `while` loop scanning for a free counter is
modelled with explicit fuel `buf.length + 1`, which always suffices because
each consumed unit of fuel witnesses a distinct buffer member. -/

structure GenState where
  lastTimestamp : Nat
  idBuffer : List StreamId
deriving DecidableEq, Repr

/-- The generator's fresh state (`_lastTimestamp = 0`, empty buffer). -/
def genInit : GenState := ⟨0, []⟩

/-- The `while (this._idBuffer.has(id)) sequence++` scan, with fuel. -/
def firstFreeGo (t : Nat) (buf : List StreamId) : Nat → Nat → Nat
  | 0, s => s
  | fuel + 1, s =>
    if (StreamId.mk t s) ∈ buf then firstFreeGo t buf fuel (s + 1) else s

/-- src/src/server/realtime.ts `generateStreamId`, as a state transformer over
the current wall-clock reading `now` (= `Date.now()`). -/
def generateStreamId (now : Nat) (st : GenState) : StreamId × GenState :=
  let buf := if now ≠ st.lastTimestamp then [] else st.idBuffer
  let s := firstFreeGo now buf (buf.length + 1) 0
  let id : StreamId := ⟨now, s⟩
  (id, ⟨now, id :: buf⟩)

/-- Run the generator over a sequence of wall-clock readings, collecting the
returned identifiers in order. -/
def genRun : List Nat → GenState → List StreamId
  | [], _ => []
  | c :: cs, st => (generateStreamId c st).1 :: genRun cs (generateStreamId c st).2

/-! ## The durable log and its bounded range reads

A per-topic log is a list of entries in append order; well-formed logs are
strictly ascending in their ids (Redis streams enforce this at `XADD`).  The
session handler issues `XRANGE channel:<c> (<last_ack> +` (forward, exclusive
lower bound) and `XREVRANGE channel:<c> + <start> [count]` (backward from the
newest entry down to an inclusive lower bound, limited by `count`).  A bare
millisecond string `"<ms>"` used as a bound denotes the id `<ms>-0`. -/

/-- One persisted Event Envelope: the stream id assigned at append time plus
the stored fields `__event_path` and `data`. -/
structure Entry (α : Type) where
  id : StreamId
  eventPath : List String
  data : α
deriving DecidableEq, Repr

/-- A lower bound for a range read: `"-"`, an inclusive id, or a
`(`-prefixed exclusive id. -/
inductive LBound
  | minus
  | incl (a : StreamId)
  | excl (a : StreamId)
deriving DecidableEq, Repr

/-- Whether an entry id passes a lower bound. -/
def LBound.admits : LBound → StreamId → Bool
  | .minus, _ => true
  | .incl a, x => decide (compareStreamIds a x ≤ 0)
  | .excl a, x => decide (compareStreamIds a x < 0)

/-- Take with an optional count (`COUNT` argument absent = unlimited). -/
def takeOpt (c : Option Nat) (l : List α) : List α :=
  match c with
  | none => l
  | some n => l.take n

/-- The two read shapes the session handler issues (the upper bound is always
`"+"` in the source). -/
inductive FetchReq
  | xrange (lb : LBound)
  | xrevrange (lb : LBound) (count : Option Nat)
deriving DecidableEq, Repr

/-- Evaluate a read against a log held in ascending append order:
`xrange` returns the passing entries ascending, `xrevrange` returns them
descending (newest first) limited by the count. -/
def evalFetch (log : List (Entry α)) : FetchReq → List (Entry α)
  | .xrange lb => log.filter (fun e => lb.admits e.id)
  | .xrevrange lb c => takeOpt c (log.filter (fun e => lb.admits e.id)).reverse

/-- A log backend that answers every read from `log`. -/
def goodFetch (log : List (Entry α)) : FetchReq → Except String (List (Entry α)) :=
  fun r => Except.ok (evalFetch log r)

/-! ## The subscription session (src/unnamed/part_007) -/

/-- A message written to the outbound stream: the five System Signals of
src/src/types.ts plus the `UserEvent` envelope shape
`(data, __event_path, __stream_id)`. -/
inductive Msg (α : Type)
  | connected (channel : String) (cursor : Option StreamId)
  | reconnect
  | ping (timestamp : Nat)
  | error (message : String)
  | disconnected (channel : String)
  | event (id : StreamId) (eventPath : List String) (data : α)
deriving DecidableEq, Repr

/-- The connect-request parameters read from the query string in `handle`
(src/unnamed/part_007 lines 16-23).  `history_since` and `connection_start`
are epoch-millisecond numbers; `last_ack` is a stream id. -/
structure Params where
  channel : String
  reconnect : Bool
  last_ack : Option StreamId
  history_all : Bool
  history_length : Option Nat
  history_since : Option Nat
  connection_start : Option Nat
deriving DecidableEq, Repr

/-- The envelope written to the stream for one log entry. -/
def userEventOf (e : Entry α) : Msg α := .event e.id e.eventPath e.data

/-- src/unnamed/part_007 `onSubscribe` (lines 100-275): the replay performed
once the Bus subscription is confirmed.  `now` is the `Date.now()` fallback
for a missing `connection_start`; `fetch` is the log backend (the `await
redis.xrange`/`redis.xrevrange` calls), whose failure is caught by the
surrounding `try` and reported as an `error` signal.  The source's in-place
`reverse` helper is `List.reverse`. -/
def onSubscribe (p : Params) (now : Nat)
    (fetch : FetchReq → Except String (List (Entry α))) : List (Msg α) :=
  match p.reconnect, p.last_ack with
  | true, some ack =>
    match fetch (.xrange (.excl ack)) with
    | .error e => [.error e]
    | .ok missing => .connected p.channel none :: missing.map userEventOf
  | _, _ =>
    let connectionStart := p.connection_start.getD now
    if p.history_all ∨ p.history_length.isSome ∨ p.history_since.isSome then
      let start : LBound :=
        match p.history_since with
        | some s =>
          if s > connectionStart then .incl ⟨connectionStart, 0⟩ else .incl ⟨s, 0⟩
        | none => .minus
      match fetch (.xrevrange start p.history_length) with
      | .error e => [.error e]
      | .ok hist =>
        let cursor := (hist.head?.map (·.id)).getD zeroId
        .connected p.channel (some cursor) :: hist.reverse.map userEventOf
    else
      match fetch (.xrevrange (.incl ⟨connectionStart, 0⟩) none) with
      | .error e => [.error e]
      | .ok hist =>
        let cursor := (hist.head?.map (·.id)).getD zeroId
        .connected p.channel (some cursor) :: hist.reverse.map userEventOf

/-- A message arriving from the fan-out Bus after the subscription is
confirmed: a synthesized keepalive ping or a published envelope. -/
inductive BusMsg (α : Type)
  | ping (timestamp : Nat)
  | event (id : StreamId) (eventPath : List String) (data : α)
deriving DecidableEq, Repr

/-- src/unnamed/part_007 `onMessage` (lines 301-341): every live Bus message
is written to the stream immediately — a ping as a ping signal, anything else
as a `UserEvent` envelope.  No buffering and no id comparison happens here. -/
def onMessage : BusMsg α → Msg α
  | .ping ts => .ping ts
  | .event i pa d => .event i pa d

/-- The outbound stream of one unbroken session (no abort, error, or cutover):
the replay written by `onSubscribe` followed by the live messages delivered by
the Bus, in arrival order.  Callbacks are serialized, so this is a legal
schedule of the handler. -/
def sessionTrace (p : Params) (now : Nat)
    (fetch : FetchReq → Except String (List (Entry α))) (live : List (BusMsg α)) :
    List (Msg α) :=
  onSubscribe p now fetch ++ live.map onMessage

/-- The Event Envelope ids written to a stream, in emission order. -/
def emittedIds (ms : List (Msg α)) : List StreamId :=
  ms.filterMap fun m =>
    match m with
    | .event i _ _ => some i
    | _ => none

/-- A Bus message is consistent with the log when, if it is a published
envelope, it carries the id, path and data of a logged entry. -/
def busOk (log : List (Entry α)) : BusMsg α → Prop
  | .ping _ => True
  | .event i pa d => (Entry.mk i pa d) ∈ log

instance [DecidableEq α] (log : List (Entry α)) : DecidablePred (busOk log) :=
  fun m =>
    match m with
    | .ping _ => isTrue trivial
    | .event i pa d => decidable_of_iff ((Entry.mk i pa d) ∈ log) Iff.rfl

/-- A live Bus feed is consistent with the log when every published envelope in
it is a logged entry (the producer publishes exactly what it appended). -/
def busConsistent (log : List (Entry α)) (live : List (BusMsg α)) : Prop :=
  ∀ m ∈ live, busOk log m

instance [DecidableEq α] (log : List (Entry α)) (live : List (BusMsg α)) :
    Decidable (busConsistent log live) :=
  List.decidableBAll (busOk log) live

/-! ## The client hook (src/src/client/use-realtime.ts)

The `onmessage` handler parses each wire message, handles the `connected`,
`reconnect` and `error` signals, then — for payloads carrying an `id` field —
skips ids already present in the `processedIds` set before resolving the
handler registered under `__event_path` and invoking it with `payload.data`.
Note: the envelopes written by src/unnamed/part_007 carry their id in
`__stream_id`, not in `id`. -/

/-- A parsed wire payload as the client reads it: the fields `type`, `cursor`,
`id`, `__event_path` and `data` it accesses (each absent field is `none`). -/
structure ClientPayload (α : Type) where
  type? : Option String
  cursor : Option StreamId
  id : Option StreamId
  eventPath : Option (List String)
  data : Option α
deriving DecidableEq, Repr

/-- How the client sees each message serialized by src/unnamed/part_007:
System Signals carry a `type` discriminant, envelopes carry
`(data, __event_path, __stream_id)` and in particular no `id` field. -/
def wireToClient : Msg α → ClientPayload α
  | .connected _ cur => ⟨some "connected", cur, none, none, none⟩
  | .reconnect => ⟨some "reconnect", none, none, none, none⟩
  | .ping _ => ⟨some "ping", none, none, none, none⟩
  | .error _ => ⟨some "error", none, none, none, none⟩
  | .disconnected _ => ⟨some "disconnected", none, none, none, none⟩
  | .event _ pa d => ⟨none, none, none, some pa, some d⟩

/-- Client mirror state: the `processedIds` set and `lastAckRef`. -/
structure ClientState where
  processedIds : List StreamId
  lastAck : Option StreamId
deriving DecidableEq, Repr

/-- A fresh client (`processedIds` empty, no acknowledged id). -/
def clientInit : ClientState := ⟨[], none⟩

/-- The tail of `onmessage`: resolve the handler registered at
`payload.__event_path` (`handlers` says whether one exists) and invoke it with
`payload.data`; invocations are collected as `(path, data)` pairs. -/
def clientDeliver (handlers : List String → Bool) (st : ClientState)
    (p : ClientPayload α) : ClientState × List (List String × Option α) :=
  match p.eventPath with
  | some pa => (st, if handlers pa then [(pa, p.data)] else [])
  | none => (st, [])

/-- src/src/client/use-realtime.ts `onmessage` (lines 81-123) on one parsed
payload: system-signal handling first, then the `if (payload.id)` duplicate
check against the `processedIds` set, then handler resolution. -/
def clientStep (handlers : List String → Bool) (st : ClientState)
    (p : ClientPayload α) : ClientState × List (List String × Option α) :=
  if p.type? = some "connected" then
    (if p.cursor.isSome ∧ st.lastAck = none then { st with lastAck := p.cursor } else st,
     [])
  else if p.type? = some "reconnect" then (st, [])
  else if p.type? = some "error" then (st, [])
  else
    match p.id with
    | some i =>
      if i ∈ st.processedIds then (st, [])
      else clientDeliver handlers ⟨i :: st.processedIds, some i⟩ p
    | none => clientDeliver handlers st p

/-- Process a list of payloads in order, collecting every handler invocation. -/
def clientRun (handlers : List String → Bool) :
    ClientState → List (ClientPayload α) → ClientState × List (List String × Option α)
  | st, [] => (st, [])
  | st, p :: ps =>
    let s₁ := clientStep handlers st p
    let s₂ := clientRun handlers s₁.1 ps
    (s₂.1, s₁.2 ++ s₂.2)

/-! ## The producer (src/src/server/realtime.ts)

`findSchema` walks the nested schema record along the dot-split event path and
returns the value found there when it is a zod type (`_zod`/`_def` present);
`handlers.emit` validates against that schema when one is registered, then
appends to the stream and publishes the same envelope to the Bus.  The
dot-joined path is modelled as the split list; the `MAXLEN` trim and
`EXPIRE` refresh options do not affect the appended entry or the publish
payload and are omitted. -/

/-- The registered schema: a nested record whose leaves are zod validators,
modelled as decidable predicates on the payload type. -/
inductive SchemaTree (α : Type) where
  | leaf (valid : α → Bool)
  | node (children : List (String × SchemaTree α))

/-- Property access `current[key]` on a nested schema record. -/
def findChild (cs : List (String × SchemaTree α)) (k : String) :
    Option (SchemaTree α) :=
  match cs.find? (fun c => c.1 == k) with
  | some c => some c.2
  | none => none

/-- src/src/server/realtime.ts `findSchema` (lines 247-254): walk the path;
the result is a validator exactly when the walk lands on a zod leaf
(`current?._zod || current?._def`), and `undefined` when it dead-ends or lands
on a plain nested record. -/
def findSchema : SchemaTree α → List String → Option (α → Bool)
  | .leaf v, [] => some v
  | .leaf _, _ :: _ => none
  | .node _, [] => none
  | .node cs, k :: ks =>
    match findChild cs k with
    | some t => findSchema t ks
    | none => none

/-- Producer-visible backing state: the id generator shared by the instance,
the per-topic log and the list of Bus publishes. -/
structure ProducerState (α : Type) where
  gen : GenState
  log : List (Entry α)
  published : List (BusMsg α)
deriving Repr

/-- Outcome of one `emit` call: the assigned id, or the `z.parse` throw. -/
inductive EmitResult
  | ok (id : StreamId)
  | validationError
deriving DecidableEq, Repr

/-- The side-effecting tail of `emit`: assign an id via `generateStreamId`,
`XADD` the payload under that id, and `PUBLISH` the same envelope. -/
def emitStore (eventPath : List String) (d : α) (now : Nat)
    (st : ProducerState α) : EmitResult × ProducerState α :=
  let g := generateStreamId now st.gen
  (.ok g.1,
   ⟨g.2, st.log ++ [⟨g.1, eventPath, d⟩], st.published ++ [.event g.1 eventPath d]⟩)

/-- src/src/server/realtime.ts `handlers.emit` (lines 256-302): validate
against the schema registered at the event path when there is one (`z.parse`
throws before any Redis command is issued), otherwise proceed unvalidated. -/
def emit (schema : SchemaTree α) (eventPath : List String) (d : α) (now : Nat)
    (st : ProducerState α) : EmitResult × ProducerState α :=
  match findSchema schema eventPath with
  | some valid =>
    if valid d then emitStore eventPath d now st else (.validationError, st)
  | none => emitStore eventPath d now st

/-! ## The per-instance channel registry (src/src/server/realtime.ts lines
307-313)

`channel(name)` lazily fills `this.channels[name]` with
`createEventHandlers(name)` and returns the cached object afterwards.  Each
`createEventHandlers` call constructs a fresh handlers object; object identity
is modelled by a creation token drawn from a counter. -/

/-- The `channels` cache plus the identity counter for freshly created
handler objects. -/
structure ChanState where
  nextToken : Nat
  cache : List (String × Nat)
deriving DecidableEq, Repr

/-- A `Realtime` instance with no per-channel handlers created yet. -/
def chanInit : ChanState := ⟨0, []⟩

/-- Property lookup `this.channels[name]`. -/
def lookupChannel (cache : List (String × Nat)) (n : String) : Option Nat :=
  match cache.find? (fun c => c.1 == n) with
  | some c => some c.2
  | none => none

/-- Accessor `channel(name)`: create-and-cache on first access, return the
cached handler object afterwards. -/
def channelOp (n : String) (st : ChanState) : Nat × ChanState :=
  match lookupChannel st.cache n with
  | some h => (h, st)
  | none => (st.nextToken, ⟨st.nextToken + 1, (n, st.nextToken) :: st.cache⟩)

/-! ## The session close path (src/unnamed/part_007 lines 61-77, 288-299,
356-359) -/

/-- Observable steps of the close path, in execution order. -/
inductive CloseEff
  | clearReconnectTimeout
  | clearKeepaliveInterval
  | removeAbortListener
  | unsubscribeBus
  | closeController
  | enqueueDisconnected (channel : String)
deriving DecidableEq, Repr

/-- The `isClosed` latch guarding the close path and `safeEnqueue`. -/
structure SessionState where
  isClosed : Bool
deriving DecidableEq, Repr

/-- src/unnamed/part_007 `cleanup`: a second entry returns immediately on the
`isClosed` latch; otherwise timers are cleared, the abort listener removed,
the Bus unsubscribed — a rejection of `subscriber.unsubscribe()` is caught
(`.catch`) and only logged, hence `unsub`'s outcome never changes the result —
and the controller closed. -/
def cleanup (unsub : Unit → Except String Unit) (s : SessionState) :
    SessionState × List CloseEff :=
  if s.isClosed then (s, [])
  else
    let unsubEff :=
      match unsub () with
      | .ok _ => [CloseEff.unsubscribeBus]
      | .error _ => [CloseEff.unsubscribeBus]
    (⟨true⟩,
     [CloseEff.clearReconnectTimeout, CloseEff.clearKeepaliveInterval,
      CloseEff.removeAbortListener] ++ unsubEff ++ [CloseEff.closeController])

/-- src/unnamed/part_007 `cancel` (lines 356-359): the stream's cancel
callback checks the latch and defers to `cleanup`. -/
def cancel (unsub : Unit → Except String Unit) (s : SessionState) :
    SessionState × List CloseEff :=
  if s.isClosed then (s, []) else cleanup unsub s

/-- src/unnamed/part_007 `onUnsubscribe` (lines 288-299): `safeEnqueue` the
`disconnected` signal (dropped when the latch is already set), then `cleanup`. -/
def onUnsubscribeStep (unsub : Unit → Except String Unit) (ch : String)
    (s : SessionState) : SessionState × List CloseEff :=
  let pre := if s.isClosed then [] else [CloseEff.enqueueDisconnected ch]
  let c := cleanup unsub s
  (c.1, pre ++ c.2)

/-- Occurrences of the Bus unsubscribe among close effects. -/
def countUnsub (es : List CloseEff) : Nat :=
  es.countP (fun e => decide (e = CloseEff.unsubscribeBus))

/-- Occurrences of an emitted `disconnected` signal among close effects. -/
def countDisconnected (es : List CloseEff) : Nat :=
  es.countP fun e =>
    match e with
    | .enqueueDisconnected _ => true
    | _ => false

/-! ## Basic facts about the comparator order and the range reads -/

theorem idLt_of_lt_of_le {a b c : StreamId} (h₁ : idLt a b) (h₂ : idLe b c) : idLt a c := by
  rw [idLe_iff] at h₂; rw [idLt_iff] at h₁ ⊢; omega

theorem idLe_iff_compare {a b : StreamId} : idLe a b ↔ compareStreamIds a b ≤ 0 := by
  rw [idLe_iff]
  unfold compareStreamIds
  rcases a with ⟨t₁, s₁⟩
  rcases b with ⟨t₂, s₂⟩
  simp only
  split <;> omega

theorem admits_incl {a x : StreamId} : (LBound.incl a).admits x = true ↔ idLe a x := by
  simp [LBound.admits, idLe_iff_compare]

theorem admits_excl {a x : StreamId} : (LBound.excl a).admits x = true ↔ idLt a x := by
  simp [LBound.admits, idLt]

theorem takeOpt_sublist (c : Option Nat) (l : List α) : (takeOpt c l).Sublist l := by
  cases c with
  | none => exact List.Sublist.refl l
  | some n => exact List.take_sublist n l

/-- The reads the session handler performs only ever return entries of the
log, preserving their relative order. -/
theorem evalFetch_sublist (log : List (Entry α)) (r : FetchReq) :
    ((evalFetch log r).Sublist log) ∨ ((evalFetch log r).reverse.Sublist log) := by
  cases r with
  | xrange lb => exact Or.inl (List.filter_sublist log)
  | xrevrange lb c =>
    refine Or.inr ?_
    have h₁ := takeOpt_sublist c (log.filter (fun e => lb.admits e.id)).reverse
    have h₂ := h₁.reverse
    rw [List.reverse_reverse] at h₂
    exact h₂.trans (List.filter_sublist log)

theorem emittedIds_userEvents (l : List (Entry α)) :
    emittedIds (l.map userEventOf) = l.map Entry.id := by
  induction l with
  | nil => rfl
  | cons e es ih => simp [emittedIds, userEventOf, List.filterMap_cons] at ih ⊢; exact ih

theorem emittedIds_connected_cons (ch : String) (cur : Option StreamId)
    (ms : List (Msg α)) :
    emittedIds (Msg.connected ch cur :: ms) = emittedIds ms := by
  simp [emittedIds, List.filterMap_cons]

/-! ## Reachable generator buffers

Within one clock tick the buffer accumulates exactly the ids
`⟨t, k-1⟩, …, ⟨t, 0⟩` in insertion order; it is cleared whenever the clock
reading changes. -/

/-- The buffer contents after `k` ids were handed out at timestamp `t`. -/
def BufCon (t k : Nat) (buf : List StreamId) : Prop :=
  buf = (List.range k).reverse.map (fun i => StreamId.mk t i)

theorem bufCon_mem {t k : Nat} {buf : List StreamId} (h : BufCon t k buf)
    (x : StreamId) : x ∈ buf ↔ x.ts = t ∧ x.seq < k := by
  subst h
  simp only [List.mem_map, List.mem_reverse, List.mem_range]
  constructor
  · rintro ⟨i, hi, rfl⟩; exact ⟨rfl, hi⟩
  · rintro ⟨h₁, h₂⟩; exact ⟨x.seq, h₂, by cases x; simp_all⟩

theorem bufCon_length {t k : Nat} {buf : List StreamId} (h : BufCon t k buf) :
    buf.length = k := by
  subst h; simp

theorem firstFreeGo_eq {t k : Nat} {buf : List StreamId} (h : BufCon t k buf) :
    ∀ (fuel s : Nat), s ≤ k → k + 1 - s ≤ fuel → firstFreeGo t buf fuel s = k := by
  intro fuel
  induction fuel with
  | zero => intro s h₁ h₂; omega
  | succ n ih =>
    intro s h₁ h₂
    by_cases hmem : (StreamId.mk t s) ∈ buf
    · have hs : s < k := ((bufCon_mem h _).mp hmem).2
      simp only [firstFreeGo, if_pos hmem]
      exact ih (s + 1) hs (by omega)
    · have hs : ¬ s < k := fun hlt => hmem ((bufCon_mem h _).mpr ⟨rfl, hlt⟩)
      simp only [firstFreeGo, if_neg hmem]
      omega

/-- One generator step from a reachable state: at an unchanged clock reading
the counter advances to `k`; at any other reading (later or earlier!) the
buffer is cleared and the timestamp component is replaced by the reading. -/
theorem generateStreamId_step {t k now : Nat} {buf : List StreamId}
    (h : BufCon t k buf) :
    generateStreamId now ⟨t, buf⟩ =
      (if now = t then (⟨t, k⟩, ⟨t, StreamId.mk t k :: buf⟩)
       else (⟨now, 0⟩, ⟨now, [StreamId.mk now 0]⟩)) := by
  by_cases hnow : now = t
  · subst hnow
    simp only [generateStreamId, ne_eq, not_true_eq_false, if_neg, ite_self,
      if_pos rfl, reduceIte]
    rw [firstFreeGo_eq h (buf.length + 1) 0 (Nat.zero_le k)
      (by rw [bufCon_length h]; omega)]
  · have hne : now ≠ t := hnow
    simp only [generateStreamId, ne_eq, hne, not_false_eq_true, if_pos, reduceIte]
    rfl

theorem bufCon_step_same {t k : Nat} {buf : List StreamId} (h : BufCon t k buf) :
    BufCon t (k + 1) (StreamId.mk t k :: buf) := by
  unfold BufCon at h ⊢
  rw [h, List.range_succ, List.reverse_append]
  rfl

theorem bufCon_one (now : Nat) : BufCon now 1 [StreamId.mk now 0] := by
  unfold BufCon
  rfl

/-- Generator monotonicity from any reachable state, provided the wall clock
never strictly decreases between calls. -/
theorem genRun_mono :
    ∀ (cs : List Nat) (t k : Nat) (buf : List StreamId), BufCon t k buf →
      cs.Chain' (· ≤ ·) → (∀ c ∈ cs.head?, t ≤ c) →
      (genRun cs ⟨t, buf⟩).Pairwise idLt ∧
      (∀ o ∈ genRun cs ⟨t, buf⟩, idLe ⟨t, k⟩ o) := by
  intro cs
  induction cs with
  | nil => intro t k buf _ _ _; simp [genRun]
  | cons c cs ih =>
    intro t k buf hbuf hchain hhead
    have hc : t ≤ c := hhead c rfl
    have hstep := @generateStreamId_step t k c buf hbuf
    have hnexthead : ∀ d ∈ cs.head?, c ≤ d := (List.chain'_cons'.mp hchain).1
    have htail : cs.Chain' (· ≤ ·) := (List.chain'_cons'.mp hchain).2
    by_cases hct : c = t
    · subst hct
      rw [if_pos rfl] at hstep
      have hnext := ih c (k + 1) _ (bufCon_step_same hbuf) htail hnexthead
      have hlt : idLt ⟨c, k⟩ ⟨c, k + 1⟩ := idLt_iff.mpr (Or.inr ⟨rfl, Nat.lt_succ_self k⟩)
      constructor
      · rw [genRun, hstep]
        refine List.Pairwise.cons ?_ hnext.1
        intro o ho
        exact idLt_of_lt_of_le hlt (hnext.2 o ho)
      · intro o ho
        rw [genRun, hstep] at ho
        rcases List.mem_cons.mp ho with rfl | ho
        · exact Or.inl rfl
        · exact Or.inr (idLt_of_lt_of_le hlt (hnext.2 o ho))
    · rw [if_neg hct] at hstep
      have htc : t < c := lt_of_le_of_ne hc (fun h => hct h.symm)
      have hnext := ih c 1 _ (bufCon_one c) htail hnexthead
      have hlt01 : idLt ⟨c, 0⟩ ⟨c, 1⟩ := idLt_iff.mpr (Or.inr ⟨rfl, Nat.zero_lt_one⟩)
      have hltk0 : idLt ⟨t, k⟩ ⟨c, 0⟩ := idLt_iff.mpr (Or.inl htc)
      constructor
      · rw [genRun, hstep]
        refine List.Pairwise.cons ?_ hnext.1
        intro o ho
        exact idLt_of_lt_of_le hlt01 (hnext.2 o ho)
      · intro o ho
        rw [genRun, hstep] at ho
        rcases List.mem_cons.mp ho with rfl | ho
        · exact Or.inr hltk0
        · exact Or.inr (idLt_trans hltk0 (idLt_of_lt_of_le hlt01 (hnext.2 o ho)))

/-! ## Claim theorems -/

/-- Claim C3, counterexample: the generator guards the buffer with
`timestamp !== lastTimestamp`, not `>`, so a backward wall-clock jump
(readings 5 then 3) regresses the identifier, and revisiting the earlier
timestamp (readings 5, 3, 5) even reproduces an already-returned identifier —
refuting both "strictly greater than every previously returned" and "no
duplicate or smaller id is ever produced". -/
theorem claim3_counterexample :
    genRun [5, 3] genInit = [⟨5, 0⟩, ⟨3, 0⟩] ∧
    idLt ⟨3, 0⟩ ⟨5, 0⟩ ∧
    ¬ (genRun [5, 3] genInit).Pairwise idLt ∧
    ¬ (genRun [5, 3, 5] genInit).Nodup := by
  decide

/-- Claim C3, amended: every call to the Sequence Identifier generator returns
an id strictly greater than every id previously returned by the same
generator, provided the wall clock never strictly decreases between calls;
within one clock tick the counter keeps incrementing, so no duplicate is
produced.  (On a backward clock jump the source clears the buffer and adopts
the regressed timestamp, so monotonicity does not survive such jumps.) -/
theorem claim3_amended (cs : List Nat) (h : cs.Chain' (· ≤ ·)) :
    (genRun cs genInit).Pairwise idLt :=
  (genRun_mono cs 0 0 [] rfl h (fun c _ => Nat.zero_le c)).1

/-- Witness for C3-amended at the clock readings 3, 3, 5. -/
theorem claim3_amended_witness :
    List.Chain' (· ≤ ·) [3, 3, 5] ∧ (genRun [3, 3, 5] genInit).Pairwise idLt :=
  ⟨by simp [List.chain'_cons], claim3_amended [3, 3, 5] (by simp [List.chain'_cons])⟩

/-- Claim C8: when the log read performed during replay fails, `onSubscribe`
catches it and writes only the `error` System Signal — no teardown happens in
the handler, the Bus subscription stays registered, and the live messages
that follow are still written to the stream. -/
theorem claim8_replay_error_recovered (α : Type) (p : Params) (now : Nat)
    (e : String) (live : List (BusMsg α)) :
    onSubscribe (α := α) p now (fun _ => Except.error e) = [Msg.error e] ∧
    sessionTrace (α := α) p now (fun _ => Except.error e) live =
      Msg.error e :: live.map onMessage := by
  have h : onSubscribe (α := α) p now (fun _ => Except.error e) = [Msg.error e] := by
    rcases p with ⟨ch, rec, la, ha, hl, hs, cst⟩
    cases rec <;> cases la <;>
      first
      | rfl
      | (simp only [onSubscribe]; split <;> rfl)
  exact ⟨h, by simp [sessionTrace, h]⟩

/-- Claim C9: the close path is idempotent.  A second `cleanup` is a no-op on
the `isClosed` latch, `cancel` after `cleanup` is a no-op, the Bus unsubscribe
runs at most once across both invocations and its rejection never changes the
outcome (the `.catch`), and repeated unsubscribe callbacks emit the
`disconnected` signal at most once. -/
theorem claim9_close_idempotent (u₁ u₂ : Unit → Except String Unit)
    (s : SessionState) (ch : String) :
    cleanup u₂ (cleanup u₁ s).1 = ((cleanup u₁ s).1, []) ∧
    countUnsub ((cleanup u₁ s).2 ++ (cleanup u₂ (cleanup u₁ s).1).2) ≤ 1 ∧
    cleanup u₁ s = cleanup u₂ s ∧
    cancel u₂ (cleanup u₁ s).1 = ((cleanup u₁ s).1, []) ∧
    countDisconnected ((onUnsubscribeStep u₁ ch s).2 ++
      (onUnsubscribeStep u₂ ch (onUnsubscribeStep u₁ ch s).1).2) ≤ 1 := by
  rcases s with ⟨b⟩
  cases b <;>
    cases h₁ : u₁ () <;> cases h₂ : u₂ () <;>
      simp [cleanup, cancel, onUnsubscribeStep, countUnsub, countDisconnected, h₁, h₂]

/-- Claim C10: `channel(name)` is an idempotent get-or-create.  A second call
for the same name returns the identical cached handler object without touching
the state, and calls for one name leave every other name's cache entry
unchanged. -/
theorem claim10_channel_get_or_create (st : ChanState) (n : String) :
    (channelOp n (channelOp n st).2).1 = (channelOp n st).1 ∧
    (channelOp n (channelOp n st).2).2 = (channelOp n st).2 ∧
    ∀ m, m ≠ n → lookupChannel ((channelOp n st).2).cache m = lookupChannel st.cache m := by
  rcases st with ⟨tok, cache⟩
  cases h : lookupChannel cache n with
  | some v =>
    refine ⟨?_, ?_, ?_⟩ <;> simp [channelOp, h]
  | none =>
    have hstep : channelOp n ⟨tok, cache⟩ = (tok, ⟨tok + 1, (n, tok) :: cache⟩) := by
      simp [channelOp, h]
    have hself : lookupChannel ((n, tok) :: cache) n = some tok := by
      simp [lookupChannel, List.find?_cons]
    have hstep2 : channelOp n ⟨tok + 1, (n, tok) :: cache⟩ =
        (tok, ⟨tok + 1, (n, tok) :: cache⟩) := by
      simp [channelOp, hself]
    refine ⟨?_, ?_, ?_⟩
    · rw [hstep, hstep2]
    · rw [hstep, hstep2]
    · intro m hm
      have hne : (n == m) = false := by
        simp only [beq_eq_false_iff_ne, ne_eq]
        exact fun hcontra => hm hcontra.symm
      rw [hstep]
      simp [lookupChannel, List.find?_cons, hne]

/-- Witness for C10 at a fresh instance: create the handler for "a", then
check the second access and the independence of name "b". -/
theorem claim10_witness :
    (channelOp "a" (channelOp "a" chanInit).2).1 = (channelOp "a" chanInit).1 ∧
    lookupChannel ((channelOp "a" chanInit).2).cache "b" =
      lookupChannel chanInit.cache "b" := by
  refine ⟨(claim10_channel_get_or_create chanInit "a").1, ?_⟩
  exact (claim10_channel_get_or_create chanInit "a").2.2 "b" (by decide)

/-- Claim C7: `emit` validates against the schema registered at the event
path: a registered schema rejecting the payload makes `emit` return the
validation error with the producer state untouched (nothing appended, nothing
published); an unregistered path skips validation and the emit appends one
entry and publishes the same envelope under the assigned id. -/
theorem claim7_emit_validation (α : Type) (schema : SchemaTree α)
    (path : List String) (d : α) (now : Nat) (st : ProducerState α) :
    (∀ v, findSchema schema path = some v → v d = false →
      emit schema path d now st = (EmitResult.validationError, st)) ∧
    (findSchema schema path = none →
      ∃ i, (emit schema path d now st).1 = EmitResult.ok i ∧
        (emit schema path d now st).2.log = st.log ++ [Entry.mk i path d] ∧
        (emit schema path d now st).2.published =
          st.published ++ [BusMsg.event i path d]) := by
  constructor
  · intro v hv hd
    simp [emit, hv, hd]
  · intro hnone
    exact ⟨(generateStreamId now st.gen).1, by simp [emit, hnone, emitStore]⟩

/-- A concrete registered schema for the C7 witness: path "user.created"
holds a validator accepting naturals below 10. -/
def schemaW : SchemaTree Nat :=
  .node [("user", .node [("created", .leaf (fun n => decide (n < 10)))])]

/-- Witness for C7: payload 42 violates the registered schema at
"user.created" and the emit has no effect; path "user.other" is unregistered
and the emit proceeds. -/
theorem claim7_witness :
    emit schemaW ["user", "created"] 42 5 ⟨genInit, [], []⟩ =
      (EmitResult.validationError, ⟨genInit, [], []⟩) ∧
    (∃ i, (emit schemaW ["user", "other"] 42 5 ⟨genInit, [], []⟩).1 = EmitResult.ok i ∧
      (emit schemaW ["user", "other"] 42 5 ⟨genInit, [], []⟩).2.log =
        [] ++ [Entry.mk i ["user", "other"] 42] ∧
      (emit schemaW ["user", "other"] 42 5 ⟨genInit, [], []⟩).2.published =
        [] ++ [BusMsg.event i ["user", "other"] 42]) := by
  constructor
  · exact (claim7_emit_validation Nat schemaW ["user", "created"] 42 5
      ⟨genInit, [], []⟩).1 (fun n => decide (n < 10)) rfl rfl
  · exact (claim7_emit_validation Nat schemaW ["user", "other"] 42 5
      ⟨genInit, [], []⟩).2 rfl

theorem evalFetch_nil (α : Type) (r : FetchReq) :
    evalFetch ([] : List (Entry α)) r = [] := by
  cases r with
  | xrange lb => rfl
  | xrevrange lb c => cases c <;> simp [evalFetch, takeOpt]

/-- Unfolding of `onSubscribe` for a session not in reconnect mode (the
`reconnect === "true" && last_ack` guard fails). -/
theorem onSubscribe_fresh (α : Type) (p : Params) (now : Nat)
    (fetch : FetchReq → Except String (List (Entry α)))
    (h : p.reconnect = false ∨ p.last_ack = none) :
    onSubscribe p now fetch =
      (if p.history_all ∨ p.history_length.isSome ∨ p.history_since.isSome then
        match fetch (.xrevrange
            (match p.history_since with
             | some s =>
               if s > p.connection_start.getD now then
                 LBound.incl ⟨p.connection_start.getD now, 0⟩
               else LBound.incl ⟨s, 0⟩
             | none => LBound.minus)
            p.history_length) with
        | .error e => [Msg.error e]
        | .ok hist =>
          Msg.connected p.channel (some ((hist.head?.map (·.id)).getD zeroId)) ::
            hist.reverse.map userEventOf
      else
        match fetch (.xrevrange (.incl ⟨p.connection_start.getD now, 0⟩) none) with
        | .error e => [Msg.error e]
        | .ok hist =>
          Msg.connected p.channel (some ((hist.head?.map (·.id)).getD zeroId)) ::
            hist.reverse.map userEventOf) := by
  rcases p with ⟨ch, rec, la, ha, hl, hs, cst⟩
  rcases h with h | h <;> simp only at h <;> subst h
  · cases la <;> rfl
  · cases rec <;> rfl

/-- Claim C5: in reconnect mode the session reads the log forward strictly
exclusive of the client's last-acknowledged id to the end, emits
`connected{topic}` without a cursor field first, then every envelope found by
that read, ascending by id and all strictly newer than the acknowledged id. -/
theorem claim5_reconnect_mode (α : Type) (p : Params) (a : StreamId) (now : Nat)
    (log : List (Entry α))
    (hrec : p.reconnect = true) (hack : p.last_ack = some a)
    (hsorted : (log.map Entry.id).Pairwise idLt) :
    onSubscribe p now (goodFetch log) =
      Msg.connected p.channel none ::
        (log.filter (fun e => (LBound.excl a).admits e.id)).map userEventOf ∧
    emittedIds (onSubscribe p now (goodFetch log)) =
      (log.filter (fun e => (LBound.excl a).admits e.id)).map Entry.id ∧
    (emittedIds (onSubscribe p now (goodFetch log))).Pairwise idLt ∧
    ∀ i ∈ emittedIds (onSubscribe p now (goodFetch log)), idLt a i := by
  have hout : onSubscribe p now (goodFetch log) =
      Msg.connected p.channel none ::
        (log.filter (fun e => (LBound.excl a).admits e.id)).map userEventOf := by
    unfold onSubscribe
    rw [hrec, hack]
    rfl
  have hids : emittedIds (onSubscribe p now (goodFetch log)) =
      (log.filter (fun e => (LBound.excl a).admits e.id)).map Entry.id := by
    rw [hout, emittedIds_connected_cons, emittedIds_userEvents]
  refine ⟨hout, hids, ?_, ?_⟩
  · rw [hids]
    exact hsorted.sublist ((List.filter_sublist log).map Entry.id)
  · intro i hi
    rw [hids] at hi
    rcases List.mem_map.mp hi with ⟨e, he, rfl⟩
    exact admits_excl.mp ((List.mem_filter.mp he).2)

/-- Witness for C5: reconnect with acknowledged id 4-0 over a three-entry
log replays exactly the strictly newer entry, after a cursor-less connected. -/
theorem claim5_witness :
    onSubscribe ⟨"chat", true, some ⟨4, 0⟩, false, none, none, none⟩ 9
        (goodFetch [⟨⟨3, 0⟩, ["a"], (0 : Nat)⟩, ⟨⟨4, 0⟩, ["a"], 1⟩, ⟨⟨6, 1⟩, ["b"], 2⟩]) =
      Msg.connected "chat" none :: [⟨⟨6, 1⟩, ["b"], (2 : Nat)⟩].map userEventOf ∧
    ∀ i ∈ emittedIds (onSubscribe ⟨"chat", true, some ⟨4, 0⟩, false, none, none, none⟩ 9
        (goodFetch [⟨⟨3, 0⟩, ["a"], (0 : Nat)⟩, ⟨⟨4, 0⟩, ["a"], 1⟩, ⟨⟨6, 1⟩, ["b"], 2⟩])),
      idLt ⟨4, 0⟩ i := by
  have h := claim5_reconnect_mode Nat ⟨"chat", true, some ⟨4, 0⟩, false, none, none, none⟩
    ⟨4, 0⟩ 9 [⟨⟨3, 0⟩, ["a"], 0⟩, ⟨⟨4, 0⟩, ["a"], 1⟩, ⟨⟨6, 1⟩, ["b"], 2⟩]
    rfl rfl (by decide)
  exact ⟨h.1, h.2.2.2⟩

/-- Shape of the fresh-connect output for a given backward-read result
`hist` (descending): the cursor is the newest entry found or the zero
sentinel, the connected signal precedes only envelopes, and a nonempty replay
ends exactly at the cursor id. -/
theorem freshShape (α : Type) (ch : String) (cur : Option StreamId) (hist : List (Entry α)) :
    (∀ m ∈ hist.reverse.map userEventOf, ∃ i pa d, m = Msg.event i pa d) ∧
    (hist.reverse.map userEventOf = [] → ((hist.head?.map (·.id)).getD zeroId) = zeroId) ∧
    (hist.reverse.map userEventOf ≠ [] →
      some ((hist.head?.map (·.id)).getD zeroId) =
        (emittedIds (Msg.connected ch cur :: hist.reverse.map userEventOf)).getLast?) := by
  refine ⟨?_, ?_, ?_⟩
  · intro m hm
    rcases List.mem_map.mp hm with ⟨e, _, rfl⟩
    exact ⟨e.id, e.eventPath, e.data, rfl⟩
  · intro hnil
    rcases hist with _ | ⟨e, t⟩
    · rfl
    · simp at hnil
  · intro hne
    rw [emittedIds_connected_cons, emittedIds_userEvents]
    rcases hist with _ | ⟨e, t⟩
    · simp at hne
    · simp [List.map_reverse, List.getLast?_reverse]

/-- Claim C6: in fresh-connect mode the session emits
`connected{topic, cursor}` strictly before any replayed envelope; the cursor
is the id of the newest entry found by the backward read (for a nonempty
replay it equals the last — newest — emitted envelope id) or the sentinel
`"0-0"` when nothing is found; a fresh connect to an empty topic yields only
the connected signal with cursor `"0-0"` and no envelopes. -/
theorem claim6_fresh_cursor_first (α : Type) (p : Params) (now : Nat)
    (log : List (Entry α)) (hfresh : p.reconnect = false ∨ p.last_ack = none) :
    (∃ c rest, onSubscribe p now (goodFetch log) =
        Msg.connected p.channel (some c) :: rest ∧
      (∀ m ∈ rest, ∃ i pa d, m = Msg.event i pa d) ∧
      (rest = [] → c = zeroId) ∧
      (rest ≠ [] →
        some c = (emittedIds (onSubscribe p now (goodFetch log))).getLast?)) ∧
    (log = [] →
      onSubscribe p now (goodFetch log) = [Msg.connected p.channel (some zeroId)]) := by
  rw [onSubscribe_fresh α p now (goodFetch log) hfresh]
  split
  all_goals refine ⟨⟨_, _, rfl, ?_, ?_, ?_⟩, ?_⟩
  any_goals exact (freshShape α p.channel none _).1
  any_goals exact (freshShape α p.channel none _).2.1
  any_goals exact (freshShape α p.channel _ _).2.2
  all_goals intro hlog
  all_goals subst hlog
  all_goals simp [goodFetch, evalFetch_nil]

/-- Witness for C6: the spec scenario — fresh connect to topic "chat" with no
reconnect or history parameters over an empty log yields exactly one
`connected` with cursor `"0-0"`. -/
theorem claim6_witness :
    onSubscribe (α := Nat) ⟨"chat", false, none, false, none, none, none⟩ 42
        (goodFetch []) = [Msg.connected "chat" (some zeroId)] :=
  (claim6_fresh_cursor_first Nat ⟨"chat", false, none, false, none, none, none⟩ 42 []
    (Or.inl rfl)).2 rfl

/-- Claim C4, counterexample: with `history_since = 5` earlier than
`connection_start = 10`, the claimed clamp would raise the lower bound to
10-0, yet the handler keeps `start = history_since` (its clamp fires only when
`history_since > connection_start`), so the log entry 7-0 — older than the
connection-start marker — is replayed. -/
theorem claim4_counterexample :
    5 < 10 ∧
    Msg.event ⟨7, 0⟩ ["a"] (0 : Nat) ∈
      onSubscribe ⟨"c", false, none, false, none, some 5, some 10⟩ 11
        (goodFetch [⟨⟨7, 0⟩, ["a"], 0⟩]) ∧
    idLt ⟨7, 0⟩ ⟨10, 0⟩ := by
  decide

/-- Replay bounds of the backward-read branch, for any lower bound and
optional count: everything emitted passed the bound filter, the count limits
the number of envelopes, and without a count every passing entry is
emitted. -/
theorem xrevBranch (α : Type) (ch : String) (cur : Option StreamId)
    (log : List (Entry α)) (lb : LBound) (c : Option Nat) :
    (∀ i ∈ emittedIds (Msg.connected ch cur ::
        (takeOpt c ((log.filter (fun e => lb.admits e.id)).reverse)).reverse.map
          userEventOf),
      ∃ e ∈ log, lb.admits e.id = true ∧ e.id = i) ∧
    (∀ n, c = some n → (emittedIds (Msg.connected ch cur ::
        (takeOpt c ((log.filter (fun e => lb.admits e.id)).reverse)).reverse.map
          userEventOf)).length ≤ n) ∧
    (c = none → ∀ e ∈ log, lb.admits e.id = true →
      userEventOf e ∈ (Msg.connected ch cur ::
        (takeOpt c ((log.filter (fun e => lb.admits e.id)).reverse)).reverse.map
          userEventOf)) := by
  refine ⟨?_, ?_, ?_⟩
  · intro i hi
    rw [emittedIds_connected_cons, emittedIds_userEvents] at hi
    rcases List.mem_map.mp hi with ⟨e, he, rfl⟩
    have h1 : e ∈ takeOpt c (log.filter (fun e => lb.admits e.id)).reverse :=
      List.mem_reverse.mp he
    have h2 : e ∈ (log.filter (fun e => lb.admits e.id)).reverse :=
      (takeOpt_sublist _ _).subset h1
    have h3 : e ∈ log.filter (fun e => lb.admits e.id) := List.mem_reverse.mp h2
    exact ⟨e, (List.mem_filter.mp h3).1, by simpa using (List.mem_filter.mp h3).2, rfl⟩
  · intro n hn
    subst hn
    rw [emittedIds_connected_cons, emittedIds_userEvents]
    simp only [takeOpt, List.length_map, List.length_reverse, List.length_take]
    omega
  · intro hn e he hadm
    subst hn
    refine List.mem_cons_of_mem _ ?_
    simp only [takeOpt, List.reverse_reverse]
    exact List.mem_map_of_mem userEventOf (List.mem_filter.mpr ⟨he, by simpa using hadm⟩)

/-- Claim C4, amended: in fresh-connect mode with `history_since` given, the
backward read's lower bound is the requested since time clamped to not exceed
the connection-start marker (the handler replaces it by `connection_start`
exactly when `history_since > connection_start`, i.e. the bound is their
minimum): every replayed envelope id is at least `min since connStart`-0, the
requested count still limits the replay, and without a count every log entry
at or above that bound is replayed. -/
theorem claim4_amended (α : Type) (p : Params) (s cs now : Nat)
    (log : List (Entry α))
    (hfresh : p.reconnect = false ∨ p.last_ack = none)
    (hs : p.history_since = some s) (hcs : p.connection_start = some cs) :
    (∀ i ∈ emittedIds (onSubscribe p now (goodFetch log)), idLe ⟨min s cs, 0⟩ i) ∧
    (∀ n, p.history_length = some n →
      (emittedIds (onSubscribe p now (goodFetch log))).length ≤ n) ∧
    (p.history_length = none → ∀ e ∈ log, idLe ⟨min s cs, 0⟩ e.id →
      userEventOf e ∈ onSubscribe p now (goodFetch log)) := by
  have hbound : (if s > cs then LBound.incl ⟨cs, 0⟩ else LBound.incl ⟨s, 0⟩)
      = LBound.incl ⟨min s cs, 0⟩ := by
    by_cases h : s > cs
    · rw [if_pos h]
      have : min s cs = cs := by omega
      rw [this]
    · rw [if_neg h]
      have : min s cs = s := by omega
      rw [this]
  have hout : onSubscribe p now (goodFetch log) =
      Msg.connected p.channel
          (some (((takeOpt p.history_length
            ((log.filter (fun e =>
              (LBound.incl ⟨min s cs, 0⟩).admits e.id)).reverse)).head?.map
                (·.id)).getD zeroId)) ::
        (takeOpt p.history_length
          ((log.filter (fun e =>
            (LBound.incl ⟨min s cs, 0⟩).admits e.id)).reverse)).reverse.map
              userEventOf := by
    rw [onSubscribe_fresh α p now (goodFetch log) hfresh, hs, hcs]
    simp only [Option.isSome_some, or_true, if_true, Option.getD_some, goodFetch,
      evalFetch, hbound]
  have hx := xrevBranch α p.channel
    (some (((takeOpt p.history_length
      ((log.filter (fun e =>
        (LBound.incl ⟨min s cs, 0⟩).admits e.id)).reverse)).head?.map
          (·.id)).getD zeroId))
    log (LBound.incl ⟨min s cs, 0⟩) p.history_length
  refine ⟨?_, ?_, ?_⟩
  · intro i hi
    rw [hout] at hi
    rcases hx.1 i hi with ⟨e, _, hadm, rfl⟩
    exact admits_incl.mp hadm
  · intro n hn
    rw [hout]
    exact hx.2.1 n hn
  · intro hn e he hle
    rw [hout]
    exact hx.2.2 hn e he (admits_incl.mpr hle)

/-- Witness for C4-amended: since 5, connection start 10 (minimum 5) over a
log holding 4-0 and 7-0 with no count limit: both bound and completeness are
checked at entry 7-0. -/
theorem claim4_amended_witness :
    (∀ i ∈ emittedIds (onSubscribe ⟨"c", false, none, false, none, some 5, some 10⟩ 11
        (goodFetch [⟨⟨4, 0⟩, ["a"], (0 : Nat)⟩, ⟨⟨7, 0⟩, ["a"], 1⟩])),
      idLe ⟨min 5 10, 0⟩ i) ∧
    userEventOf ⟨⟨7, 0⟩, ["a"], (1 : Nat)⟩ ∈
      onSubscribe ⟨"c", false, none, false, none, some 5, some 10⟩ 11
        (goodFetch [⟨⟨4, 0⟩, ["a"], (0 : Nat)⟩, ⟨⟨7, 0⟩, ["a"], 1⟩]) := by
  have h := claim4_amended Nat ⟨"c", false, none, false, none, some 5, some 10⟩ 5 10 11
    [⟨⟨4, 0⟩, ["a"], 0⟩, ⟨⟨7, 0⟩, ["a"], 1⟩] (Or.inl rfl) rfl rfl
  exact ⟨h.1, h.2.2 rfl ⟨⟨7, 0⟩, ["a"], 1⟩ (by decide) (by decide)⟩

/-- Every id the replay emits is the id of a log entry, in log order: the
replayed prefix is always a sublist of the log. -/
theorem xrevEmitted_sublist (log : List (Entry α)) (lb : LBound) (c : Option Nat) :
    ((takeOpt c ((log.filter (fun e => lb.admits e.id)).reverse)).reverse.map
      Entry.id).Sublist (log.map Entry.id) := by
  have h1 : (takeOpt c ((log.filter (fun e => lb.admits e.id)).reverse)).Sublist
      ((log.filter (fun e => lb.admits e.id)).reverse) := takeOpt_sublist _ _
  have h2 := h1.reverse
  rw [List.reverse_reverse] at h2
  exact (h2.trans (List.filter_sublist log)).map Entry.id

theorem emitted_branch_sublist (α : Type) (ch : String) (cur : Option StreamId)
    (log : List (Entry α)) (lb : LBound) (c : Option Nat) :
    (emittedIds (Msg.connected ch cur ::
      (takeOpt c ((log.filter (fun e => lb.admits e.id)).reverse)).reverse.map
        userEventOf)).Sublist (log.map Entry.id) := by
  rw [emittedIds_connected_cons, emittedIds_userEvents]
  exact xrevEmitted_sublist log lb c

/-- In every connection mode the replay writes ids that form a sublist of the
log's id sequence. -/
theorem emitted_onSubscribe_sublist (α : Type) (p : Params) (now : Nat)
    (log : List (Entry α)) :
    (emittedIds (onSubscribe p now (goodFetch log))).Sublist (log.map Entry.id) := by
  rcases p with ⟨ch, rec, la, ha, hl, hs, cst⟩
  by_cases hmode : rec = true ∧ la.isSome = true
  · rcases hmode with ⟨hrec, hla⟩
    subst hrec
    rcases Option.isSome_iff_exists.mp hla with ⟨a, rfl⟩
    have hids : emittedIds (onSubscribe (α := α) ⟨ch, true, some a, ha, hl, hs, cst⟩
        now (goodFetch log)) =
        (log.filter (fun e => (LBound.excl a).admits e.id)).map Entry.id := by
      rw [show onSubscribe (α := α) ⟨ch, true, some a, ha, hl, hs, cst⟩ now
          (goodFetch log) = Msg.connected ch none ::
            (log.filter (fun e => (LBound.excl a).admits e.id)).map userEventOf
        from rfl]
      rw [emittedIds_connected_cons, emittedIds_userEvents]
    rw [hids]
    exact (List.filter_sublist log).map Entry.id
  · have hfresh : (⟨ch, rec, la, ha, hl, hs, cst⟩ : Params).reconnect = false ∨
        (⟨ch, rec, la, ha, hl, hs, cst⟩ : Params).last_ack = none := by
      cases rec with
      | false => exact Or.inl rfl
      | true =>
        cases la with
        | none => exact Or.inr rfl
        | some a => exact absurd ⟨rfl, rfl⟩ hmode
    rw [onSubscribe_fresh α _ now (goodFetch log) hfresh]
    split
    · exact emitted_branch_sublist α ch _ log _ hl
    · exact emitted_branch_sublist α ch _ log _ none

/-- The scenario shared by the C1 and C2 counterexamples: a fresh connect to
"chat" with connection start 5, one envelope appended at 10-0 (between
connection start and Bus-subscription confirmation), the same envelope also
published live. -/
def scnParams : Params := ⟨"chat", false, none, false, none, none, some 5⟩

def scnLog : List (Entry Nat) := [⟨⟨10, 0⟩, ["a"], 0⟩]

def scnLive : List (BusMsg Nat) := [.event ⟨10, 0⟩ ["a"] 0]

def scnHandlers : List String → Bool := fun pa => pa == ["a"]

/-- Claim C1, counterexample: in the shared scenario the envelope 10-0 is both
replayed by `onSubscribe` (the backward read reaches down to connection start
5) and forwarded by `onMessage` when the Bus delivers it, so the outbound
stream carries the id 10-0 twice — the id sequence of an unbroken session is
not strictly increasing across the REPLAYING to LIVE transition. -/
theorem claim1_counterexample :
    busConsistent scnLog scnLive ∧
    (scnLog.map Entry.id).Pairwise idLt ∧
    Msg.event ⟨10, 0⟩ ["a"] 0 ∈ onSubscribe scnParams 11 (goodFetch scnLog) ∧
    emittedIds (sessionTrace scnParams 11 (goodFetch scnLog) scnLive) =
      [⟨10, 0⟩, ⟨10, 0⟩] ∧
    ¬ (emittedIds (sessionTrace scnParams 11 (goodFetch scnLog) scnLive)).Pairwise idLt := by
  decide

/-- Claim C1, amended: the ordering guarantee holds within the replayed
prefix — for a log ascending in ids, the envelope ids written by `onSubscribe`
are strictly increasing — but every live Bus envelope is then written
unconditionally, with no comparison against the replay, so an envelope both
replayed and published live recurs and the whole-session sequence need not
increase. -/
theorem claim1_amended (α : Type) (p : Params) (now : Nat) (log : List (Entry α))
    (hsorted : (log.map Entry.id).Pairwise idLt) :
    (emittedIds (onSubscribe p now (goodFetch log))).Pairwise idLt ∧
    ∀ (live : List (BusMsg α)) i pa d, BusMsg.event i pa d ∈ live →
      Msg.event i pa d ∈ sessionTrace p now (goodFetch log) live := by
  refine ⟨hsorted.sublist (emitted_onSubscribe_sublist α p now log), ?_⟩
  intro live i pa d hmem
  refine List.mem_append_right _ ?_
  exact List.mem_map_of_mem onMessage hmem

/-- Witness for C1-amended at the shared scenario. -/
theorem claim1_amended_witness :
    (emittedIds (onSubscribe scnParams 11 (goodFetch scnLog))).Pairwise idLt ∧
    Msg.event ⟨10, 0⟩ ["a"] (0 : Nat) ∈
      sessionTrace scnParams 11 (goodFetch scnLog) scnLive := by
  have h := claim1_amended Nat scnParams 11 scnLog (by decide)
  exact ⟨h.1, h.2 scnLive ⟨10, 0⟩ ["a"] 0 (by decide)⟩

/-- Claim C2, counterexample: the envelope appended immediately before
Bus-subscription confirmation and also published live reaches the client's
event handler twice, not once — the wire envelopes carry `__stream_id` and no
`id` field, so the client's `processedIds` duplicate check (an identity check,
not a comparison) never engages. -/
theorem claim2_counterexample :
    Msg.event ⟨10, 0⟩ ["a"] 0 ∈ onSubscribe scnParams 11 (goodFetch scnLog) ∧
    BusMsg.event ⟨10, 0⟩ ["a"] 0 ∈ scnLive ∧
    (clientRun scnHandlers clientInit
        ((sessionTrace scnParams 11 (goodFetch scnLog) scnLive).map wireToClient)).2 =
      [(["a"], some 0), (["a"], some 0)] := by
  decide

/-- Claim C2, amended: such an envelope is delivered to the handler twice
(at-least-once, deduplicated by nothing): a payload without an `id` field is
never suppressed, even when identical to the previous one; the client's only
duplicate suppression is the identity check on `payload.id` against the
`processedIds` set, which drops a payload whose id was already processed. -/
theorem claim2_amended (α : Type) (handlers : List String → Bool)
    (st : ClientState) (p q : ClientPayload α) (pa : List String) (i : StreamId)
    (hp1 : p.type? = none) (hp2 : p.id = none) (hp3 : p.eventPath = some pa)
    (hp4 : handlers pa = true)
    (hq1 : q.type? = none) (hq2 : q.id = some i) (hq3 : i ∈ st.processedIds) :
    (clientRun handlers st [p, p]).2 = [(pa, p.data), (pa, p.data)] ∧
    clientStep handlers st q = (st, []) := by
  have hstep : clientStep handlers st p = (st, [(pa, p.data)]) := by
    simp [clientStep, hp1, hp2, clientDeliver, hp3, hp4]
  constructor
  · simp [clientRun, hstep]
  · simp [clientStep, hq1, hq2, hq3]

/-- Witness for C2-amended: a concrete id-less envelope payload processed
twice invokes the handler twice, and a payload whose id is already in
`processedIds` is dropped. -/
theorem claim2_amended_witness :
    (clientRun scnHandlers ⟨[⟨1, 1⟩], none⟩
        [⟨none, none, none, some ["a"], some (7 : Nat)⟩,
         ⟨none, none, none, some ["a"], some 7⟩]).2 =
      [(["a"], some 7), (["a"], some 7)] ∧
    clientStep scnHandlers ⟨[⟨1, 1⟩], none⟩
        (⟨none, none, some ⟨1, 1⟩, some ["a"], some (8 : Nat)⟩ : ClientPayload Nat) =
      (⟨[⟨1, 1⟩], none⟩, []) := by
  have h := claim2_amended Nat scnHandlers ⟨[⟨1, 1⟩], none⟩
    ⟨none, none, none, some ["a"], some 7⟩ ⟨none, none, some ⟨1, 1⟩, some ["a"], some 8⟩
    ["a"] ⟨1, 1⟩ rfl rfl rfl (by decide) rfl rfl (by decide)
  exact h
